import Mathlib

/-!
Verification development for the streaming execution relay of go-lit.

Client side (web/app/client/shared/api.ts): `parseSSE`, `handleStreamResponse`,
`handleStreamError`, `api.chat`, `api.vision` are embedded as pure functions over
`List Char` (one JS string = one list of characters; `TextDecoder` with
`stream := true` is abstracted by delivering the decoded text of each read).
Server side (internal/agents): `writeSSEStream`, `ChatStream`, `ParseVisionForm`
are embedded with external collaborators (JSON codec, the go-agents engine,
the multipart parser outcomes) as explicit parameters.
-/

/-- JSON values as produced by `JSON.parse` (numbers restricted to integers,
which covers every payload this protocol transports). -/
inductive JVal where
  | null
  | bool (b : Bool)
  | num (n : Int)
  | str (s : List Char)
  | arr (elems : List JVal)
  | obj (members : List (List Char × JVal))

/-- One callback invocation observed by the caller of the client API:
`onChunk` with the parsed payload, `onError` with the error value, or
`onComplete`. -/
inductive Event where
  | onChunk (v : JVal)
  | onError (v : JVal)
  | onComplete

/-- How the client read loop ends once all reads are delivered: a clean
`done` from the reader, or a rejected `read()` carrying a JS error name
and message. -/
inductive ReadEnd where
  | done
  | exn (name msg : List Char)
deriving DecidableEq

/-- `SSE_DATA_PREFIX` in api.ts. -/
def sseDataMarker : List Char := ("data: ").toList

/-- `SSE_DONE_SIGNAL` in api.ts. -/
def sseDoneLit : List Char := ("[DONE]").toList

/-- The fixed diagnostic of parseSSE when `response.body` is absent. -/
def noBodyMsg : List Char := ("No response body").toList

/-- The JS error name that handleStreamError suppresses. -/
def abortName : List Char := ("AbortError").toList

/-- JS whitespace as removed by `String.prototype.trim`. -/
def jsWS (c : Char) : Bool :=
  c = ' ' || c = '\t' || c = '\n' || c = '\r' || c = '\x0b' || c = '\x0c'

/-- `String.prototype.trim`. -/
def jsTrim (s : List Char) : List Char :=
  ((s.dropWhile jsWS).reverse.dropWhile jsWS).reverse

/-- `buffer.split('\n')`, as a (first line, remaining lines) pair. -/
def splitNlP : List Char → List Char × List (List Char)
  | [] => ([], [])
  | c :: cs =>
    let r := splitNlP cs
    if c = '\n' then ([], r.1 :: r.2) else (c :: r.1, r.2)

/-- `buffer.split('\n')`: never empty, last element is the trailing partial line. -/
def splitNl (s : List Char) : List (List Char) := (splitNlP s).1 :: (splitNlP s).2

/-- The last element of a line list (total, the list is never empty). -/
def lastLn (L : List (List Char)) : List Char := L.getLastD []

/-- `line.startsWith(SSE_DATA_PREFIX)`. -/
def isMarked (l : List Char) : Bool := sseDataMarker.isPrefixOf l

/-- `line.slice(SSE_DATA_PREFIX.length).trim()`. -/
def dataOf (l : List Char) : List Char := jsTrim (l.drop sseDataMarker.length)

/-- JS `'error' in v` throws a TypeError when `v` is a primitive
(`null`, boolean, number, or string); it evaluates normally on objects
and arrays. -/
def inOpThrows : JVal → Bool
  | .null => true
  | .bool _ => true
  | .num _ => true
  | .str _ => true
  | .arr _ => false
  | .obj _ => false

/-- The property name tested by `'error' in chunk`. -/
def errKey : List Char := ("error").toList

/-- `'error' in v` for a non-throwing `v`. -/
def hasErrorKey : JVal → Bool
  | .obj ms => ms.any (fun m => m.fst = errKey)
  | _ => false

/-- `v.error` (used only when the key is present). -/
def errorFieldD : JVal → JVal
  | .obj ms =>
    match ms.find? (fun m => decide (m.fst = errKey)) with
    | some m => m.snd
    | none => .null
  | _ => .null

/-- The body of parseSSE's per-line processing: returns the callbacks it
fires and whether it `return`s from parseSSE. `p` models `JSON.parse`
(`none` = parse threw). `thr v` models the caller's `onChunk` throwing on
payload `v`; the surrounding `try/catch` swallows every throw, so a throw
only ends that line's processing. -/
def lineEventsT (p : List Char → Option JVal) (thr : JVal → Bool) (line : List Char) :
    List Event × Bool :=
  if isMarked line then
    let data := dataOf line
    if data = sseDoneLit then ([Event.onComplete], true)
    else
      match p data with
      | none => ([], false)
      | some v =>
        if inOpThrows v then ([], false)
        else if hasErrorKey v then ([Event.onError (errorFieldD v)], true)
        else if thr v then ([Event.onChunk v], false)
        else ([Event.onChunk v], false)
  else ([], false)

/-- `for (const line of lines) ...`: processes complete lines until one of
them `return`s (second component `true`). -/
def procLines (p : List Char → Option JVal) (thr : JVal → Bool) :
    List (List Char) → List Event × Bool
  | [] => ([], false)
  | l :: ls =>
    let r := lineEventsT p thr l
    if r.snd then (r.fst, true)
    else
      let rest := procLines p thr ls
      (r.fst ++ rest.fst, rest.snd)

/-- The `while (true)` read loop of parseSSE. Each element of `reads` is the
decoded text of one `reader.read()`; `buf` is the retained partial line.
Returns the fired callbacks, and `some (name, msg)` when a rejected read
made parseSSE itself reject (nothing more runs inside parseSSE then). -/
def parseLoopE (p : List Char → Option JVal) (thr : JVal → Bool) :
    List (List Char) → List Char → ReadEnd → List Event × Option (List Char × List Char)
  | [], _, .done => ([Event.onComplete], none)
  | [], _, .exn name msg => ([], some (name, msg))
  | r :: rs, buf, tl =>
    let combined := buf ++ r
    let L := splitNl combined
    let pr := procLines p thr L.dropLast
    if pr.snd then (pr.fst, none)
    else
      let rest := parseLoopE p thr rs (lastLn L) tl
      (pr.fst ++ rest.fst, rest.snd)

/-- `parseSSE`: no readable body fires `onError('No response body')` without
reading; otherwise the read loop runs with an empty initial buffer. -/
def parseSSEr (p : List Char → Option JVal) (thr : JVal → Bool) (hasBody : Bool)
    (reads : List (List Char)) (tl : ReadEnd) :
    List Event × Option (List Char × List Char) :=
  if hasBody then parseLoopE p thr reads [] tl
  else ([Event.onError (.str noBodyMsg)], none)

/-- `handleStreamError`: fires `onError(err.message)` unless the error is an
AbortError. -/
def handleStreamErrorEv (name msg : List Char) : List Event :=
  if name = abortName then [] else [Event.onError (.str msg)]

/-- The resolved `Response` as seen by handleStreamResponse. -/
structure ResponseModel where
  ok : Bool
  errText : List Char
  statusText : List Char
  hasBody : Bool
  reads : List (List Char)
  tl : ReadEnd

/-- The outcome of the `fetch` call made by api.chat / api.vision. -/
inductive FetchResult where
  | rejected (name msg : List Char)
  | resolved (res : ResponseModel)

/-- `handleStreamResponse`: non-ok responses fire `onError(text || statusText)`
and never reach parseSSE; ok responses run parseSSE. -/
def handleStreamResponseEv (p : List Char → Option JVal) (thr : JVal → Bool)
    (res : ResponseModel) : List Event × Option (List Char × List Char) :=
  if res.ok then parseSSEr p thr res.hasBody res.reads res.tl
  else ([Event.onError (.str (if res.errText = [] then res.statusText else res.errText))], none)

/-- `fetch(...).then(handleStreamResponse(options)).catch(handleStreamError(options))`:
the full client-side callback trace for one request. -/
def streamPipeline (p : List Char → Option JVal) (thr : JVal → Bool)
    (fr : FetchResult) : List Event :=
  match fr with
  | .rejected name msg => handleStreamErrorEv name msg
  | .resolved res =>
    let r := handleStreamResponseEv p thr res
    r.fst ++ (match r.snd with
      | none => []
      | some nm => handleStreamErrorEv nm.fst nm.snd)

/-- A caller whose `onChunk` never throws. -/
def noThrow : JVal → Bool := fun _ => false

/-! ## Server side: writeSSEStream, ChatStream (internal/agents) -/

/-- `response.StreamingChunk` as relayed on the channel: a nil/non-nil
`Error` plus the payload fields the engine fills in (opaque to the relay;
only serialization and the error check touch them). -/
structure StreamingChunk where
  error : Option (List Char) := none
  model : List Char := []
  delta : List Char := []
  finishReason : Option (List Char) := none
deriving DecidableEq

/-- The external JSON machinery: `json.Marshal` on a chunk (which may fail),
`json.Marshal` of the `map[string]string` error payload (which cannot),
`JSON.parse` on the client, and the JS value the client obtains for a
marshalled chunk. -/
structure Codec where
  marshal : StreamingChunk → Option (List Char)
  errMarshal : List Char → List Char
  parse : List Char → Option JVal
  chunkVal : StreamingChunk → JVal

/-- `fmt.Fprintf(w, "data: %s\n\n", payload)`. -/
def frameOf (payload : List Char) : List Char :=
  sseDataMarker ++ payload ++ '\n' :: '\n' :: []

/-- The drain loop of `writeSSEStream` over the producer channel, returning
the bytes written to the response body. `ctxDone n` is the value of the
`r.Context().Done()` check performed while handling the `n`-th item: the
loop pulls an item; an item with a non-nil error is written as an error
frame and ends the stream; otherwise the cancellation check runs, then the
item is marshalled (a failure skips it) and written; when the channel
closes the `[DONE]` sentinel is written. -/
def writeSSE (cc : Codec) (ctxDone : Nat → Bool) : Nat → List StreamingChunk → List Char
  | _, [] => frameOf sseDoneLit
  | n, ch :: rest =>
    match ch.error with
    | some msg => frameOf (cc.errMarshal msg)
    | none =>
      if ctxDone n then []
      else
        match cc.marshal ch with
        | none => writeSSE cc ctxDone (n + 1) rest
        | some s => frameOf s ++ writeSSE cc ctxDone (n + 1) rest

/-- The callback sequence a faithful client derives from one producer
sequence: one `onChunk` per clean chunk in order, then `onError` at the
first error item or `onComplete` at exhaustion. -/
def relayEvents (cc : Codec) : List StreamingChunk → List Event
  | [] => [Event.onComplete]
  | c :: rest =>
    match c.error with
    | some m => [Event.onError (.str m)]
    | none => Event.onChunk (cc.chunkVal c) :: relayEvents cc rest

/-- An HTTP response as far as the claims observe it. -/
structure HttpResponse where
  contentType : List Char
  status : Nat
  body : List Char
deriving DecidableEq

def appJsonCT : List Char := ("application/json").toList

def eventStreamCT : List Char := ("text/event-stream").toList

/-- `handlers.RespondError`: `application/json`, the given status, body
`{"error": "<msg>"}` plus the newline `json.Encoder.Encode` appends. -/
def respondError (cc : Codec) (status : Nat) (msg : List Char) : HttpResponse :=
  { contentType := appJsonCT, status := status, body := cc.errMarshal msg ++ ['\n'] }

def errInvalidRequest : List Char := ("invalid request").toList

def errInvalidConfig : List Char := ("invalid configuration").toList

def errExecution : List Char := ("execution error").toList

/-- `fmt.Errorf("%w: %v", base, detail)`. -/
def wrapErr (base detail : List Char) : List Char := base ++ (": ").toList ++ detail

/-- The decoded `ChatStreamRequest` (the config is opaque: it is merged and
consumed by the external engine). -/
structure ChatStreamRequest where
  prompt : List Char
deriving DecidableEq

/-- Outcome of `json.NewDecoder(r.Body).Decode(&req)`. -/
inductive DecodeOut where
  | fail (emsg : List Char)
  | ok (req : ChatStreamRequest)

/-- Outcomes of the external calls `ChatStream` makes: body decoding,
`agent.New` on the merged config (`some e` = construction error), and
`a.ChatStream` (`Except.error` = immediate execution error, `Except.ok` =
the chunk channel), plus the request context. -/
structure ChatEnv where
  decode : DecodeOut
  agentNew : Option (List Char)
  chatStream : Except (List Char) (List StreamingChunk)
  ctxDone : Nat → Bool

/-- Handler `ChatStream`: validation and construction failures answer with
`RespondError` before any stream framing; only the success path commits to
`text/event-stream` and runs the drain loop. -/
def ChatStream (cc : Codec) (env : ChatEnv) : HttpResponse :=
  match env.decode with
  | .fail e => respondError cc 400 (wrapErr errInvalidRequest e)
  | .ok req =>
    if req.prompt = [] then
      respondError cc 400 (wrapErr errInvalidRequest ("prompt is required").toList)
    else
      match env.agentNew with
      | some e => respondError cc 400 (wrapErr errInvalidConfig e)
      | none =>
        match env.chatStream with
        | .error e => respondError cc 500 (wrapErr errExecution e)
        | .ok chunks =>
          { contentType := eventStreamCT, status := 200,
            body := writeSSE cc env.ctxDone 0 chunks }

/-! ## Request assembler: ParseVisionForm (internal/agents/requests.go) -/

/-- One multipart file part: its header data and the outcomes of the
external `Open`/`ReadAll` calls. -/
structure FileHeaderM where
  filename : List Char
  contentType : List Char
  openErr : Option (List Char) := none
  readErr : Option (List Char) := none
  content : List Nat := []
deriving DecidableEq

/-- The parsed multipart form as the handler observes it: the
`ParseMultipartForm` outcome, the `json.Unmarshal` outcome on the `config`
field, the `prompt` field, and the file parts under `images[]` and
`images`. -/
structure MultipartFormM where
  parseFormErr : Option (List Char) := none
  configUnmarshalErr : Option (List Char) := none
  prompt : List Char := []
  filesBracket : List FileHeaderM := []
  filesPlain : List FileHeaderM := []
deriving DecidableEq

/-- The assembled vision request (config omitted: opaque external type). -/
structure VisionForm where
  prompt : List Char
  images : List (List Char)
deriving DecidableEq

def b64Alphabet : List Char :=
  ("ABCDEFGHIJKLMNOPQRSTUVWXYZabcdefghijklmnopqrstuvwxyz0123456789+/").toList

def b64Char (n : Nat) : Char := b64Alphabet.getD n 'A'

/-- `base64.StdEncoding.EncodeToString`. -/
def base64Std : List Nat → List Char
  | [] => []
  | [a] =>
    [b64Char (a % 256 / 4), b64Char (a % 4 * 16), '=', '=']
  | [a, b] =>
    [b64Char (a % 256 / 4), b64Char (a % 4 * 16 + b % 256 / 16), b64Char (b % 16 * 4), '=']
  | a :: b :: c :: rest =>
    [b64Char (a % 256 / 4), b64Char (a % 4 * 16 + b % 256 / 16),
     b64Char (b % 16 * 4 + c % 256 / 64), b64Char (c % 64)] ++ base64Std rest

/-- `fileToDataURI`: open the part, require an `image/...` content type,
read it, and build the data URI. -/
def fileToDataURI (fh : FileHeaderM) : Except (List Char) (List Char) :=
  match fh.openErr with
  | some e => .error e
  | none =>
    if ¬ (("image/").toList.isPrefixOf fh.contentType) then
      .error (("invalid content type: ").toList ++ fh.contentType)
    else
      match fh.readErr with
      | some e => .error e
      | none =>
        .ok (("data:").toList ++ fh.contentType ++ (";base64,").toList ++ base64Std fh.content)

/-- The image loop of `ParseVisionForm`: the first failing part aborts with
a wrapped error. -/
def mapImages : List FileHeaderM → Except (List Char) (List (List Char))
  | [] => .ok []
  | fh :: rest =>
    match fileToDataURI fh with
    | .error e =>
      .error (("processing image ").toList ++ fh.filename ++ (": ").toList ++ e)
    | .ok uri =>
      match mapImages rest with
      | .error e => .error e
      | .ok uris => .ok (uri :: uris)

/-- `ParseVisionForm`: multipart parse, config unmarshal, non-empty prompt,
then the `images[]` parts (falling back to `images` when the bracketed key
has none), each converted to a data URI. -/
def ParseVisionForm (f : MultipartFormM) : Except (List Char) VisionForm :=
  match f.parseFormErr with
  | some e => .error (("parsing multipart form: ").toList ++ e)
  | none =>
    match f.configUnmarshalErr with
    | some e => .error (("parsing config: ").toList ++ e)
    | none =>
      if f.prompt = [] then .error ("prompt is required").toList
      else
        let files := if f.filesBracket.length = 0 then f.filesPlain else f.filesBracket
        match mapImages files with
        | .error e => .error e
        | .ok images => .ok { prompt := f.prompt, images := images }

/-! ## Client request construction: api.chat / api.vision signal wiring -/

/-- The `StreamOptions` fields that decide signal binding (callbacks are
carried separately in this embedding). Signals and controllers are
identified by opaque ids. -/
structure StreamOptsM where
  signal : Option Nat
deriving DecidableEq

/-- What one call to api.chat / api.vision sets up: the fresh
`AbortController` it returns, and the signal its `fetch` is bound to. -/
structure StreamStart where
  controller : Nat
  fetchSignal : Nat
deriving DecidableEq

/-- `api.chat`: `const controller = new AbortController();
const signal = options.signal ?? controller.signal; fetch(..., { signal });
return controller;`. `fresh` is the identity of the new controller. -/
def apiChat (fresh : Nat) (opts : StreamOptsM) : StreamStart :=
  { controller := fresh, fetchSignal := opts.signal.getD fresh }

/-- `api.vision`: identical signal wiring (the form-data arguments do not
touch it). -/
def apiVision (fresh : Nat) (_config _prompt : List Char) (_imageCount : Nat)
    (opts : StreamOptsM) : StreamStart :=
  { controller := fresh, fetchSignal := opts.signal.getD fresh }

/-- The in-flight request is aborted exactly when abort has fired on the
signal the fetch was bound to. -/
def requestAborted (abortFired : Nat → Bool) (s : StreamStart) : Bool :=
  abortFired s.fetchSignal

/-! ## A concrete JSON codec (model of `json.Marshal` / `JSON.parse`)

Used to instantiate the codec parameters of the theorems at concrete
inputs. All recursion is fuel-indexed and structural so that closed
applications reduce inside `rfl`/`decide` proofs. -/

/-- JSON string escaping as emitted by the encoder. -/
def jsonEscape : List Char → List Char
  | [] => []
  | c :: rest =>
    (if c = '"' then ['\\', '"']
     else if c = '\\' then ['\\', '\\']
     else if c = '\n' then ['\\', 'n']
     else if c = '\t' then ['\\', 't']
     else if c = '\r' then ['\\', 'r']
     else [c]) ++ jsonEscape rest

def natChars : Nat → Nat → List Char
  | 0, _ => []
  | fuel + 1, n =>
    if n < 10 then [Char.ofNat (48 + n)]
    else natChars fuel (n / 10) ++ [Char.ofNat (48 + n % 10)]

def intChars (i : Int) : List Char :=
  if i < 0 then '-' :: natChars (i.natAbs + 1) i.natAbs
  else natChars (i.natAbs + 1) i.natAbs

def joinComma : List (List Char) → List Char
  | [] => []
  | [x] => x
  | x :: y :: rest => x ++ ',' :: joinComma (y :: rest)

/-- Depth-fuelled JSON printer. -/
def jpr : Nat → JVal → List Char
  | 0, _ => []
  | fuel + 1, v =>
    match v with
    | .null => ("null").toList
    | .bool true => ("true").toList
    | .bool false => ("false").toList
    | .num n => intChars n
    | .str s => '"' :: (jsonEscape s ++ ['"'])
    | .arr xs => '[' :: (joinComma (xs.map (jpr fuel)) ++ [']'])
    | .obj ms =>
      '\x7b' :: (joinComma (ms.map (fun m => '"' :: (jsonEscape m.1 ++ '"' :: ':' :: jpr fuel m.2)))
        ++ ['\x7d'])

/-- JSON whitespace. -/
def jsonWS (c : Char) : Bool := c = ' ' || c = '\t' || c = '\n' || c = '\r'

def jsonSkipWs : List Char → List Char
  | [] => []
  | c :: rest => if jsonWS c then jsonSkipWs rest else c :: rest

def unescapeChar (e : Char) : Option Char :=
  if e = '"' then some '"'
  else if e = '\\' then some '\\'
  else if e = '/' then some '/'
  else if e = 'n' then some '\n'
  else if e = 't' then some '\t'
  else if e = 'r' then some '\r'
  else none

/-- Parses the body of a JSON string after the opening quote. -/
def parseStrBody : List Char → Option (List Char × List Char)
  | [] => none
  | c :: rest =>
    if c = '"' then some ([], rest)
    else if c = '\\' then
      match rest with
      | [] => none
      | e :: rest2 =>
        match unescapeChar e, parseStrBody rest2 with
        | some u, some sr => some (u :: sr.1, sr.2)
        | _, _ => none
    else
      match parseStrBody rest with
      | some sr => some (c :: sr.1, sr.2)
      | none => none

def takeDigits : List Char → List Char × List Char
  | [] => ([], [])
  | c :: rest =>
    if c.isDigit then
      let r := takeDigits rest
      (c :: r.1, r.2)
    else ([], c :: rest)

def digitsToNat : List Char → Nat → Nat
  | [], acc => acc
  | c :: rest, acc => digitsToNat rest (acc * 10 + (c.toNat - 48))

/-- The three fuel-level parsers: a value, the items after `[`, the members
after the opening brace. -/
structure JPFuns where
  val : List Char → Option (JVal × List Char)
  items : List Char → Option (List JVal × List Char)
  mems : List Char → Option (List (List Char × JVal) × List Char)

def jpFuel : Nat → JPFuns
  | 0 => ⟨fun _ => none, fun _ => none, fun _ => none⟩
  | fuel + 1 =>
    let prev := jpFuel fuel
    { val := fun s0 =>
        let s := jsonSkipWs s0
        if ("null").toList.isPrefixOf s then some (.null, s.drop 4)
        else if ("true").toList.isPrefixOf s then some (.bool true, s.drop 4)
        else if ("false").toList.isPrefixOf s then some (.bool false, s.drop 5)
        else
          match s with
          | '"' :: rest =>
            match parseStrBody rest with
            | some sr => some (.str sr.1, sr.2)
            | none => none
          | '-' :: rest =>
            match takeDigits rest with
            | ([], _) => none
            | (ds, r) => some (.num (-(Int.ofNat (digitsToNat ds 0))), r)
          | '[' :: rest =>
            match jsonSkipWs rest with
            | ']' :: r2 => some (.arr [], r2)
            | r1 =>
              match prev.items r1 with
              | some ir => some (.arr ir.1, ir.2)
              | none => none
          | '\x7b' :: rest =>
            match jsonSkipWs rest with
            | '\x7d' :: r2 => some (.obj [], r2)
            | r1 =>
              match prev.mems r1 with
              | some mr => some (.obj mr.1, mr.2)
              | none => none
          | c :: _ =>
            if c.isDigit then
              match takeDigits s with
              | ([], _) => none
              | (ds, r) => some (.num (Int.ofNat (digitsToNat ds 0)), r)
            else none
          | [] => none,
      items := fun s =>
        match prev.val s with
        | none => none
        | some vr =>
          match jsonSkipWs vr.2 with
          | ',' :: r2 =>
            match prev.items r2 with
            | some ir => some (vr.1 :: ir.1, ir.2)
            | none => none
          | ']' :: r2 => some ([vr.1], r2)
          | _ => none,
      mems := fun s =>
        match jsonSkipWs s with
        | '"' :: rest =>
          match parseStrBody rest with
          | none => none
          | some kr =>
            match jsonSkipWs kr.2 with
            | ':' :: r2 =>
              match prev.val r2 with
              | none => none
              | some vr =>
                match jsonSkipWs vr.2 with
                | ',' :: r3 =>
                  match prev.mems r3 with
                  | some mr => some ((kr.1, vr.1) :: mr.1, mr.2)
                  | none => none
                | '\x7d' :: r3 => some ([(kr.1, vr.1)], r3)
                | _ => none
            | _ => none
        | _ => none }

/-- `JSON.parse` (on the integer-numbered fragment of JSON). -/
def jsonParse (s : List Char) : Option JVal :=
  match (jpFuel (2 * s.length + 4)).val s with
  | some vr => if jsonSkipWs vr.2 = [] then some vr.1 else none
  | none => none

/-- The JS object the client obtains for a marshalled chunk (field layout of
the wire payload; opaque engine fields beyond those the claims observe). -/
def chunkJVal (c : StreamingChunk) : JVal :=
  .obj [ (("model").toList, .str c.model),
         (("delta").toList, .str c.delta),
         (("finish_reason").toList,
           match c.finishReason with | some r => .str r | none => .null) ]

/-- The concrete codec: total chunk marshalling, `{"error": msg}` encoding,
and `JSON.parse`. -/
def jsonCodec : Codec :=
  { marshal := fun c => some (jpr 8 (chunkJVal c)),
    errMarshal := fun m => jpr 8 (.obj [(errKey, .str m)]),
    parse := jsonParse,
    chunkVal := chunkJVal }

/-- A codec whose marshaller fails on chunks of one designated model name
(models the hypothetical `json.Marshal` failure the code guards against). -/
def jsonCodecDrop (badModel : List Char) : Codec :=
  { jsonCodec with
    marshal := fun c => if c.model = badModel then none else jsonCodec.marshal c }

/-! ## Helper lemmas: line splitting -/

theorem splitNl_nil : splitNl [] = [[]] := rfl

theorem splitNl_cons_nl (s : List Char) : splitNl ('\n' :: s) = [] :: splitNl s := by
  simp [splitNl, splitNlP]

theorem splitNlP_cons_ch {c : Char} (h : ¬ c = '\n') (s : List Char) :
    splitNlP (c :: s) = (c :: (splitNlP s).1, (splitNlP s).2) := by
  simp [splitNlP, h]

theorem splitNl_cons_ch {c : Char} (h : ¬ c = '\n') (s : List Char) :
    splitNl (c :: s) = (c :: (splitNlP s).1) :: (splitNlP s).2 := by
  simp [splitNl, splitNlP, h]

theorem splitNlP_noNL {s : List Char} (h : '\n' ∉ s) : splitNlP s = (s, []) := by
  induction s with
  | nil => rfl
  | cons c cs ih =>
    simp only [List.mem_cons, not_or] at h
    have hc : ¬ c = '\n' := fun hh => h.1 hh.symm
    simp [splitNlP, ih h.2, hc]

theorem splitNl_noNL {s : List Char} (h : '\n' ∉ s) : splitNl s = [s] := by
  simp [splitNl, splitNlP_noNL h]

theorem splitNl_line {a : List Char} (h : '\n' ∉ a) (r : List Char) :
    splitNl (a ++ '\n' :: r) = a :: splitNl r := by
  induction a with
  | nil => simp [splitNl, splitNlP]
  | cons c cs ih =>
    simp only [List.mem_cons, not_or] at h
    have hc : ¬ c = '\n' := fun hh => h.1 hh.symm
    have ih' := ih h.2
    simp only [splitNl] at ih'
    injection ih' with ih1 ih2
    simp only [splitNl, List.cons_append, splitNlP_cons_ch hc, ih1, ih2]

theorem lastLn_cons₂ (l m : List Char) (M : List (List Char)) :
    lastLn (l :: m :: M) = lastLn (m :: M) := by
  simp [lastLn, List.getLastD_cons]

theorem splitNl_ne_nil (s : List Char) : splitNl s ≠ [] := by
  simp [splitNl]

theorem dropLast_cons₂' {α : Type _} (a b : α) (l : List α) :
    (a :: b :: l).dropLast = a :: (b :: l).dropLast := rfl

theorem splitNl_append (x y : List Char) :
    splitNl (x ++ y) = (splitNl x).dropLast ++ splitNl (lastLn (splitNl x) ++ y) := by
  induction x with
  | nil => simp [splitNl_nil, lastLn]
  | cons c x' ih =>
    by_cases hc : c = '\n'
    · subst hc
      rw [List.cons_append, splitNl_cons_nl, ih, splitNl_cons_nl]
      simp only [splitNl]
      rw [dropLast_cons₂', lastLn_cons₂]
      simp [lastLn]
    · rcases hx : splitNlP x' with ⟨f, r⟩
      have hsx : splitNl x' = f :: r := by simp [splitNl, hx]
      cases r with
      | nil =>
        rw [hsx] at ih
        simp only [List.dropLast_single, lastLn, List.getLastD_cons,
          List.getLastD_nil, List.nil_append] at ih
        simp only [splitNl] at ih
        injection ih with i1 i2
        rw [List.cons_append, splitNl_cons_ch hc, i1, i2, splitNl_cons_ch hc x', hx]
        simp only [List.dropLast_single, lastLn, List.getLastD_cons,
          List.getLastD_nil, List.nil_append]
        rw [List.cons_append, splitNl_cons_ch hc]
      | cons h t =>
        rw [hsx] at ih
        rw [dropLast_cons₂', lastLn_cons₂] at ih
        simp only [List.cons_append] at ih ⊢
        simp only [splitNl] at ih
        injection ih with i1 i2
        rw [splitNl_cons_ch hc, i1, i2, splitNl_cons_ch hc x', hx]
        rw [dropLast_cons₂', lastLn_cons₂]
        simp [splitNl]

/-! ## Helper lemmas: line classification -/

theorem isPrefixOf_append_self (a s : List Char) : a.isPrefixOf (a ++ s) = true := by
  induction a with
  | nil => simp only [List.nil_append]; cases s <;> rfl
  | cons c cs ih => simp [List.isPrefixOf, ih]

theorem isMarked_frameLine (s : List Char) : isMarked (sseDataMarker ++ s) = true :=
  isPrefixOf_append_self sseDataMarker s

theorem dataOf_frameLine (s : List Char) : dataOf (sseDataMarker ++ s) = jsTrim s := by
  simp [dataOf, List.drop_left]

/-- A payload that travels intact on its own frame line: newline-free,
invariant under the client's trim, and distinct from the `[DONE]` literal. -/
def goodPayload (s : List Char) : Prop :=
  '\n' ∉ s ∧ jsTrim s = s ∧ s ≠ sseDoneLit

/-- The codec laws used for a chunk the relay carries: `json.Marshal`
yields a single-line payload that `JSON.parse` turns back into the chunk's
JS object, which is neither a primitive nor error-shaped. -/
def SoundChunk (cc : Codec) (c : StreamingChunk) : Prop :=
  ∃ s, cc.marshal c = some s ∧ goodPayload s ∧ cc.parse s = some (cc.chunkVal c) ∧
    inOpThrows (cc.chunkVal c) = false ∧ hasErrorKey (cc.chunkVal c) = false

/-- The codec laws for the `{"error": msg}` payload: single-line, and the
client parses it to an object whose `error` member is the message. -/
def SoundErr (cc : Codec) (m : List Char) : Prop :=
  goodPayload (cc.errMarshal m) ∧ ∃ v, cc.parse (cc.errMarshal m) = some v ∧
    inOpThrows v = false ∧ hasErrorKey v = true ∧ errorFieldD v = .str m

theorem marker_noNL : '\n' ∉ sseDataMarker := by decide

theorem splitNl_frame {s : List Char} (h : '\n' ∉ s) (w : List Char) :
    splitNl (frameOf s ++ w) = (sseDataMarker ++ s) :: [] :: splitNl w := by
  have hline : '\n' ∉ sseDataMarker ++ s := by
    simp only [List.mem_append, not_or]
    exact ⟨marker_noNL, h⟩
  have : frameOf s ++ w = (sseDataMarker ++ s) ++ '\n' :: '\n' :: w := by
    simp [frameOf]
  rw [this, splitNl_line hline, splitNl_cons_nl]

theorem lineEventsT_blank (p : List Char → Option JVal) (thr : JVal → Bool) :
    lineEventsT p thr [] = ([], false) := rfl

theorem lineEventsT_done (p : List Char → Option JVal) (thr : JVal → Bool) :
    lineEventsT p thr (sseDataMarker ++ sseDoneLit) = ([Event.onComplete], true) := by
  have htrim : jsTrim sseDoneLit = sseDoneLit := by decide
  simp [lineEventsT, isMarked_frameLine, dataOf_frameLine, htrim]

theorem lineEventsT_chunk {p : List Char → Option JVal} (thr : JVal → Bool)
    {s : List Char} {v : JVal}
    (hg : goodPayload s) (hp : p s = some v)
    (hi : inOpThrows v = false) (hk : hasErrorKey v = false) :
    lineEventsT p thr (sseDataMarker ++ s) = ([Event.onChunk v], false) := by
  simp only [lineEventsT, isMarked_frameLine, dataOf_frameLine, hg.2.1, hg.2.2,
    if_true, if_false, hp, hi, hk]
  simp

theorem lineEventsT_errframe {p : List Char → Option JVal} (thr : JVal → Bool)
    {s : List Char} {v : JVal}
    (hg : goodPayload s) (hp : p s = some v)
    (hi : inOpThrows v = false) (hk : hasErrorKey v = true) :
    lineEventsT p thr (sseDataMarker ++ s) = ([Event.onError (errorFieldD v)], true) := by
  simp [lineEventsT, isMarked_frameLine, dataOf_frameLine, hg.2.1, hg.2.2, hp, hi, hk]

theorem lineEventsT_badparse {p : List Char → Option JVal} (thr : JVal → Bool)
    {s : List Char} (hg : goodPayload s) (hp : p s = none) :
    lineEventsT p thr (sseDataMarker ++ s) = ([], false) := by
  simp [lineEventsT, isMarked_frameLine, dataOf_frameLine, hg.2.1, hg.2.2, hp]

theorem procLines_cons_term {p : List Char → Option JVal} {thr : JVal → Bool}
    {l : List Char} {es : List Event} (ls : List (List Char))
    (he : lineEventsT p thr l = (es, true)) :
    procLines p thr (l :: ls) = (es, true) := by
  simp [procLines, he]

theorem procLines_cons_cont {p : List Char → Option JVal} {thr : JVal → Bool}
    {l : List Char} {es : List Event} (ls : List (List Char))
    (he : lineEventsT p thr l = (es, false)) :
    procLines p thr (l :: ls) = (es ++ (procLines p thr ls).1, (procLines p thr ls).2) := by
  simp [procLines, he]

theorem dropLast_frame_lines (l : List Char) (z : List Char) :
    (l :: [] :: splitNl z).dropLast = l :: [] :: (splitNl z).dropLast := by
  simp only [splitNl]
  rfl

theorem lastLn_frame_lines (l : List Char) (z : List Char) :
    lastLn (l :: [] :: splitNl z) = lastLn (splitNl z) := by
  simp only [splitNl]
  rw [lastLn_cons₂, lastLn_cons₂]

/-- Draining a producer sequence through `writeSSEStream` (no cancellation)
and classifying every complete line of the resulting wire yields exactly
the relayed callback sequence, and always ends the client loop. -/
theorem relayWire_procLines (cc : Codec) (thr : JVal → Bool) :
    ∀ (items : List StreamingChunk) (n : Nat),
    (∀ c ∈ items, (c.error = none → SoundChunk cc c) ∧
      (∀ m, c.error = some m → SoundErr cc m)) →
    procLines cc.parse thr (splitNl (writeSSE cc (fun _ => false) n items)).dropLast
      = (relayEvents cc items, true) := by
  intro items
  induction items with
  | nil =>
    intro n _
    have h1 : splitNl (frameOf sseDoneLit) = (sseDataMarker ++ sseDoneLit) :: [] :: [[]] := by
      have h := splitNl_frame (s := sseDoneLit) (by decide) []
      rwa [List.append_nil] at h
    show procLines cc.parse thr (splitNl (frameOf sseDoneLit)).dropLast = _
    rw [h1]
    rw [show ((sseDataMarker ++ sseDoneLit) :: [] :: [[]] : List (List Char)).dropLast
        = [sseDataMarker ++ sseDoneLit, []] from rfl]
    rw [procLines_cons_term _ (lineEventsT_done cc.parse thr)]
    rfl
  | cons c rest ih =>
    intro n hall
    have hc := hall c (by simp)
    have hrest : ∀ x ∈ rest, (x.error = none → SoundChunk cc x) ∧
        (∀ m, x.error = some m → SoundErr cc m) := fun x hx => hall x (by simp [hx])
    cases hec : c.error with
    | some m =>
      have hse : SoundErr cc m := hc.2 m hec
      obtain ⟨v, hpv, hi, hk, hf⟩ := hse.2
      show procLines cc.parse thr (splitNl (writeSSE cc (fun _ => false) n (c :: rest))).dropLast = _
      rw [show writeSSE cc (fun _ => false) n (c :: rest) = frameOf (cc.errMarshal m) by
        simp [writeSSE, hec]]
      have h1 : splitNl (frameOf (cc.errMarshal m))
          = (sseDataMarker ++ cc.errMarshal m) :: [] :: [[]] := by
        have h := splitNl_frame (s := cc.errMarshal m) hse.1.1 []
        rwa [List.append_nil] at h
      rw [h1]
      rw [show ((sseDataMarker ++ cc.errMarshal m) :: [] :: [[]] : List (List Char)).dropLast
          = [sseDataMarker ++ cc.errMarshal m, []] from rfl]
      rw [procLines_cons_term _ (lineEventsT_errframe thr hse.1 hpv hi hk)]
      simp [relayEvents, hec, hf]
    | none =>
      obtain ⟨s, hms, hg, hps, hi, hk⟩ := hc.1 hec
      show procLines cc.parse thr (splitNl (writeSSE cc (fun _ => false) n (c :: rest))).dropLast = _
      rw [show writeSSE cc (fun _ => false) n (c :: rest)
          = frameOf s ++ writeSSE cc (fun _ => false) (n + 1) rest by
        simp [writeSSE, hec, hms]]
      rw [splitNl_frame hg.1, dropLast_frame_lines]
      rw [procLines_cons_cont _ (lineEventsT_chunk thr hg hps hi hk)]
      rw [procLines_cons_cont _ (lineEventsT_blank cc.parse thr)]
      rw [ih (n + 1) hrest]
      simp [relayEvents, hec]

theorem relayEvents_clean (cc : Codec) :
    ∀ (items : List StreamingChunk), (∀ c ∈ items, c.error = none) →
    relayEvents cc items
      = items.map (fun c => Event.onChunk (cc.chunkVal c)) ++ [Event.onComplete] := by
  intro items
  induction items with
  | nil => intro _; rfl
  | cons c rest ih =>
    intro h
    have hc : c.error = none := h c (by simp)
    simp [relayEvents, hc, ih (fun x hx => h x (by simp [hx]))]

theorem relayEvents_errEnd (cc : Codec) (e : StreamingChunk) (m : List Char)
    (he : e.error = some m) :
    ∀ (items : List StreamingChunk), (∀ c ∈ items, c.error = none) →
    relayEvents cc (items ++ [e])
      = items.map (fun c => Event.onChunk (cc.chunkVal c)) ++ [Event.onError (.str m)] := by
  intro items
  induction items with
  | nil => intro _; simp [relayEvents, he]
  | cons c rest ih =>
    intro h
    have hc : c.error = none := h c (by simp)
    have ih' := ih (fun x hx => h x (by simp [hx]))
    simp [relayEvents, hc, ih']

theorem parseLoopE_single_term {p : List Char → Option JVal} {thr : JVal → Bool}
    (w : List Char) (tl : ReadEnd)
    (h : (procLines p thr (splitNl w).dropLast).2 = true) :
    parseLoopE p thr [w] [] tl = ((procLines p thr (splitNl w).dropLast).1, none) := by
  simp [parseLoopE, h]

/-- C1. For every finite producer sequence relayed through writeSSEStream
and consumed by parseSSE, the client observes exactly one onChunk call per
chunk in the producer's emission order, followed by exactly one terminal
callback: onComplete when the sequence ends cleanly (sentinel written), or
onError(msg) when the producer yields a terminal error after zero or more
chunks, with no further callbacks after the terminal one. -/
theorem c1_relay_callback_sequence (cc : Codec) (items : List StreamingChunk)
    (msg : List Char) (thr : JVal → Bool)
    (hchunks : ∀ c ∈ items, c.error = none ∧ SoundChunk cc c)
    (herr : SoundErr cc msg) :
    parseSSEr cc.parse thr true [writeSSE cc (fun _ => false) 0 items] .done
      = (items.map (fun c => Event.onChunk (cc.chunkVal c)) ++ [Event.onComplete], none)
    ∧ parseSSEr cc.parse thr true
        [writeSSE cc (fun _ => false) 0 (items ++ [{ error := some msg }])] .done
      = (items.map (fun c => Event.onChunk (cc.chunkVal c)) ++ [Event.onError (.str msg)], none) := by
  have hclean : ∀ c ∈ items, c.error = none := fun c hcm => (hchunks c hcm).1
  have hall1 : ∀ c ∈ items, (c.error = none → SoundChunk cc c) ∧
      (∀ m, c.error = some m → SoundErr cc m) := by
    intro c hcm
    refine ⟨fun _ => (hchunks c hcm).2, fun m hm => ?_⟩
    rw [(hchunks c hcm).1] at hm
    cases hm
  have hall2 : ∀ c ∈ items ++ [({ error := some msg } : StreamingChunk)],
      (c.error = none → SoundChunk cc c) ∧
      (∀ m, c.error = some m → SoundErr cc m) := by
    intro c hcm
    rcases List.mem_append.mp hcm with hin | hin
    · exact hall1 c hin
    · have hce : c = { error := some msg } := by simpa using hin
      subst hce
      refine ⟨?_, ?_⟩
      · intro hno
        cases hno
      · intro m hm
        have hmm : m = msg := by
          simp at hm
          exact hm.symm
        rwa [hmm]
  have hw1 := relayWire_procLines cc thr items 0 hall1
  have hw2 := relayWire_procLines cc thr (items ++ [{ error := some msg }]) 0 hall2
  constructor
  · show parseLoopE cc.parse thr [writeSSE cc (fun _ => false) 0 items] [] .done = _
    rw [parseLoopE_single_term _ _ (by rw [hw1]), hw1, relayEvents_clean cc items hclean]
  · show parseLoopE cc.parse thr
        [writeSSE cc (fun _ => false) 0 (items ++ [{ error := some msg }])] [] .done = _
    rw [parseLoopE_single_term _ _ (by rw [hw2]), hw2,
      relayEvents_errEnd cc _ msg rfl items hclean]

def wChunkA : StreamingChunk := { model := ("m").toList, delta := ("Hi").toList }

def wChunkB : StreamingChunk :=
  { model := ("m").toList, delta := (" there").toList, finishReason := some ("stop").toList }

theorem soundChunk_wA : SoundChunk jsonCodec wChunkA :=
  ⟨jpr 8 (chunkJVal wChunkA), rfl, ⟨by decide, by decide, by decide⟩, rfl, rfl, rfl⟩

theorem soundChunk_wB : SoundChunk jsonCodec wChunkB :=
  ⟨jpr 8 (chunkJVal wChunkB), rfl, ⟨by decide, by decide, by decide⟩, rfl, rfl, rfl⟩

theorem soundErr_boom : SoundErr jsonCodec (("boom").toList) :=
  ⟨⟨by decide, by decide, by decide⟩,
    .obj [(errKey, .str (("boom").toList))], rfl, rfl, by decide, rfl⟩

theorem c1_relay_callback_sequence_witness :
    (∀ c ∈ [wChunkA, wChunkB], c.error = none ∧ SoundChunk jsonCodec c)
    ∧ SoundErr jsonCodec (("boom").toList)
    ∧ parseSSEr jsonCodec.parse noThrow true
        [writeSSE jsonCodec (fun _ => false) 0 [wChunkA, wChunkB]] .done
      = ([wChunkA, wChunkB].map (fun c => Event.onChunk (jsonCodec.chunkVal c))
          ++ [Event.onComplete], none) := by
  have h1 : ∀ c ∈ [wChunkA, wChunkB], c.error = none ∧ SoundChunk jsonCodec c := by
    intro c hc
    rcases List.mem_cons.mp hc with h | h
    · subst h; exact ⟨rfl, soundChunk_wA⟩
    · have : c = wChunkB := by simpa using h
      subst this; exact ⟨rfl, soundChunk_wB⟩
  exact ⟨h1, soundErr_boom,
    (c1_relay_callback_sequence jsonCodec [wChunkA, wChunkB] (("boom").toList)
      noThrow h1 soundErr_boom).1⟩

theorem procLines_append (p : List Char → Option JVal) (thr : JVal → Bool)
    (xs ys : List (List Char)) :
    procLines p thr (xs ++ ys) =
      if (procLines p thr xs).2 then procLines p thr xs
      else ((procLines p thr xs).1 ++ (procLines p thr ys).1, (procLines p thr ys).2) := by
  induction xs with
  | nil => simp [procLines]
  | cons l ls ih =>
    rcases he : lineEventsT p thr l with ⟨es, t⟩
    cases t with
    | true =>
      rw [List.cons_append, procLines_cons_term (ls ++ ys) he, procLines_cons_term ls he]
      simp
    | false =>
      rw [List.cons_append, procLines_cons_cont (ls ++ ys) he, procLines_cons_cont ls he, ih]
      by_cases h2 : (procLines p thr ls).2
      · simp [h2]
      · simp [h2]

theorem parseLoopE_cons (p : List Char → Option JVal) (thr : JVal → Bool)
    (r : List Char) (rs : List (List Char)) (buf : List Char) (tl : ReadEnd) :
    parseLoopE p thr (r :: rs) buf tl =
      (if (procLines p thr (splitNl (buf ++ r)).dropLast).2
       then ((procLines p thr (splitNl (buf ++ r)).dropLast).1, none)
       else ((procLines p thr (splitNl (buf ++ r)).dropLast).1
              ++ (parseLoopE p thr rs (lastLn (splitNl (buf ++ r))) tl).1,
             (parseLoopE p thr rs (lastLn (splitNl (buf ++ r))) tl).2)) := by
  rw [parseLoopE]

theorem dropLast_append_splitNl (z : List Char) :
    ∀ (X : List (List Char)), (X ++ splitNl z).dropLast = X ++ (splitNl z).dropLast := by
  intro X
  induction X with
  | nil => rfl
  | cons x X' ih =>
    cases X' with
    | nil =>
      simp only [List.nil_append, List.cons_append, splitNl]
      rfl
    | cons x2 X'' =>
      simp only [List.cons_append] at ih ⊢
      rw [dropLast_cons₂', ih]

theorem lastLn_append_splitNl (z : List Char) :
    ∀ (X : List (List Char)), lastLn (X ++ splitNl z) = lastLn (splitNl z) := by
  intro X
  induction X with
  | nil => rfl
  | cons x X' ih =>
    cases X' with
    | nil =>
      simp only [List.nil_append, List.cons_append, splitNl]
      exact lastLn_cons₂ _ _ _
    | cons x2 X'' =>
      simp only [List.cons_append] at ih ⊢
      rw [lastLn_cons₂, ih]

theorem parseLoopE_merge (p : List Char → Option JVal) (thr : JVal → Bool)
    (a b : List Char) (rs : List (List Char)) (buf : List Char) (tl : ReadEnd) :
    parseLoopE p thr ((a ++ b) :: rs) buf tl = parseLoopE p thr (a :: b :: rs) buf tl := by
  have hs : splitNl (buf ++ (a ++ b))
      = (splitNl (buf ++ a)).dropLast ++ splitNl (lastLn (splitNl (buf ++ a)) ++ b) := by
    rw [← List.append_assoc]
    exact splitNl_append (buf ++ a) b
  rw [parseLoopE_cons p thr (a ++ b) rs buf tl, parseLoopE_cons p thr a (b :: rs) buf tl,
    parseLoopE_cons p thr b rs (lastLn (splitNl (buf ++ a))) tl, hs,
    dropLast_append_splitNl, lastLn_append_splitNl, procLines_append]
  by_cases h1 : (procLines p thr (splitNl (buf ++ a)).dropLast).2
  · simp [h1]
  · by_cases h2 :
      (procLines p thr (splitNl (lastLn (splitNl (buf ++ a)) ++ b)).dropLast).2
    · simp [h1, h2]
    · simp [h1, h2, List.append_assoc]

theorem splitNl_lines_noNL (s : List Char) : ∀ l ∈ splitNl s, '\n' ∉ l := by
  induction s with
  | nil =>
    intro l hl
    rw [splitNl_nil] at hl
    simp at hl
    subst hl
    simp
  | cons c cs ih =>
    by_cases hc : c = '\n'
    · subst hc
      rw [splitNl_cons_nl]
      intro l hl
      rcases List.mem_cons.mp hl with h | h
      · subst h; simp
      · exact ih l h
    · rw [splitNl_cons_ch hc]
      intro l hl
      rcases List.mem_cons.mp hl with h | h
      · subst h
        intro hmem
        rcases List.mem_cons.mp hmem with h' | h'
        · exact hc h'.symm
        · exact ih _ (by simp [splitNl]) h'
      · exact ih l (by simp [splitNl, h])

theorem lastLn_mem : ∀ (h : List Char) (t : List (List Char)), lastLn (h :: t) ∈ h :: t := by
  intro h t
  induction t generalizing h with
  | nil => simp [lastLn, List.getLastD_cons, List.getLastD_nil]
  | cons m M ih =>
    rw [lastLn_cons₂]
    exact List.mem_cons_of_mem _ (ih m)

theorem parseLoopE_join (p : List Char → Option JVal) (thr : JVal → Bool) (tl : ReadEnd) :
    ∀ (reads : List (List Char)) (buf : List Char), '\n' ∉ buf →
    parseLoopE p thr reads buf tl = parseLoopE p thr [reads.flatten] buf tl := by
  intro reads
  induction reads with
  | nil =>
    intro buf hb
    rw [parseLoopE_cons]
    simp [List.append_nil, splitNl_noNL hb, procLines, lastLn]
  | cons r rs ih =>
    intro buf hb
    have hmem : lastLn (splitNl (buf ++ r)) ∈ splitNl (buf ++ r) := by
      simp only [splitNl]
      exact lastLn_mem _ _
    have hlast : '\n' ∉ lastLn (splitNl (buf ++ r)) :=
      splitNl_lines_noNL (buf ++ r) _ hmem
    calc parseLoopE p thr (r :: rs) buf tl
        = parseLoopE p thr (r :: [rs.flatten]) buf tl := by
          rw [parseLoopE_cons p thr r rs buf tl, parseLoopE_cons p thr r [rs.flatten] buf tl,
            ih (lastLn (splitNl (buf ++ r))) hlast]
      _ = parseLoopE p thr [r ++ rs.flatten] buf tl :=
          (parseLoopE_merge p thr r rs.flatten [] buf tl).symm
      _ = parseLoopE p thr [(r :: rs).flatten] buf tl := by simp [List.flatten]

/-- C2. For every wire byte sequence and every way of splitting it into
read segments at arbitrary boundaries, parseSSE invokes exactly the same
callback sequence (same onChunk arguments in the same order, same terminal
callback) as when the bytes are delivered in a single read. -/
theorem c2_fragmentation_invariance (p : List Char → Option JVal) (thr : JVal → Bool)
    (reads : List (List Char)) (tl : ReadEnd) :
    parseSSEr p thr true reads tl = parseSSEr p thr true [reads.flatten] tl := by
  show parseLoopE p thr reads [] tl = parseLoopE p thr [reads.flatten] [] tl
  exact parseLoopE_join p thr tl reads [] (by simp)

theorem lineEventsT_cases (p : List Char → Option JVal) (thr : JVal → Bool) (l : List Char) :
    lineEventsT p thr l = ([], false)
    ∨ (∃ v, lineEventsT p thr l = ([Event.onChunk v], false))
    ∨ lineEventsT p thr l = ([Event.onComplete], true)
    ∨ (∃ v, lineEventsT p thr l = ([Event.onError v], true)) := by
  unfold lineEventsT
  by_cases hm : isMarked l
  · simp only [hm, if_true]
    by_cases hd : dataOf l = sseDoneLit
    · simp [hd]
    · simp only [hd, if_false]
      cases hp : p (dataOf l) with
      | none => simp
      | some v =>
        by_cases hi : inOpThrows v
        · simp [hi]
        · by_cases hk : hasErrorKey v
          · simp [hi, hk]
          · by_cases ht : thr v
            · simp [hi, hk, ht]
            · simp [hi, hk, ht]
  · simp [hm]

theorem procLines_shape (p : List Char → Option JVal) (thr : JVal → Bool) :
    ∀ ls, (∃ cs : List JVal, procLines p thr ls = (cs.map Event.onChunk, false))
      ∨ (∃ cs : List JVal,
          procLines p thr ls = (cs.map Event.onChunk ++ [Event.onComplete], true))
      ∨ (∃ (cs : List JVal) (v : JVal),
          procLines p thr ls = (cs.map Event.onChunk ++ [Event.onError v], true)) := by
  intro ls
  induction ls with
  | nil => exact Or.inl ⟨[], rfl⟩
  | cons l ls ih =>
    rcases lineEventsT_cases p thr l with h | ⟨v, h⟩ | h | ⟨v, h⟩
    · rw [procLines_cons_cont ls h]
      rcases ih with ⟨cs, hc⟩ | ⟨cs, hc⟩ | ⟨cs, w, hc⟩
      · exact Or.inl ⟨cs, by simp [hc]⟩
      · exact Or.inr (Or.inl ⟨cs, by simp [hc]⟩)
      · exact Or.inr (Or.inr ⟨cs, w, by simp [hc]⟩)
    · rw [procLines_cons_cont ls h]
      rcases ih with ⟨cs, hc⟩ | ⟨cs, hc⟩ | ⟨cs, w, hc⟩
      · exact Or.inl ⟨v :: cs, by simp [hc]⟩
      · exact Or.inr (Or.inl ⟨v :: cs, by simp [hc]⟩)
      · exact Or.inr (Or.inr ⟨v :: cs, w, by simp [hc]⟩)
    · exact Or.inr (Or.inl ⟨[], by rw [procLines_cons_term ls h]; simp⟩)
    · exact Or.inr (Or.inr ⟨[], v, by rw [procLines_cons_term ls h]; simp⟩)

theorem parseLoopE_shape (p : List Char → Option JVal) (thr : JVal → Bool) (tl : ReadEnd) :
    ∀ (reads : List (List Char)) (buf : List Char),
      (∃ cs : List JVal,
        parseLoopE p thr reads buf tl = (cs.map Event.onChunk ++ [Event.onComplete], none))
      ∨ (∃ (cs : List JVal) (v : JVal), parseLoopE p thr reads buf tl
          = (cs.map Event.onChunk ++ [Event.onError v], none))
      ∨ (∃ (cs : List JVal) (nm : List Char × List Char),
          parseLoopE p thr reads buf tl = (cs.map Event.onChunk, some nm)) := by
  intro reads
  induction reads with
  | nil =>
    intro buf
    cases tl with
    | done => exact Or.inl ⟨[], rfl⟩
    | exn n m => exact Or.inr (Or.inr ⟨[], (n, m), rfl⟩)
  | cons r rs ih =>
    intro buf
    rw [parseLoopE_cons]
    rcases procLines_shape p thr (splitNl (buf ++ r)).dropLast with
      ⟨cs, hc⟩ | ⟨cs, hc⟩ | ⟨cs, v, hc⟩
    · rw [hc]
      rcases ih (lastLn (splitNl (buf ++ r))) with ⟨cs2, h2⟩ | ⟨cs2, v2, h2⟩ | ⟨cs2, nm2, h2⟩
      · exact Or.inl ⟨cs ++ cs2, by simp [h2]⟩
      · exact Or.inr (Or.inl ⟨cs ++ cs2, v2, by simp [h2]⟩)
      · exact Or.inr (Or.inr ⟨cs ++ cs2, nm2, by simp [h2]⟩)
    · rw [hc]
      exact Or.inl ⟨cs, by simp⟩
    · rw [hc]
      exact Or.inr (Or.inl ⟨cs, v, by simp⟩)

/-- C3. For every input byte stream (including non-ok responses, missing
bodies, and rejected reads), parseSSE together with handleStreamResponse
and handleStreamError invokes at most one terminal callback in total, and
never invokes onChunk or onError after onComplete: every trace is a block
of onChunk calls followed by at most one terminal callback. Callbacks are
modelled as returning normally (`thr` covers a throwing onChunk, whose
exception the code swallows). -/
theorem c3_single_terminal (p : List Char → Option JVal) (thr : JVal → Bool)
    (fr : FetchResult) :
    ∃ (cs : List JVal) (t : List Event), streamPipeline p thr fr = cs.map Event.onChunk ++ t
      ∧ (t = [] ∨ t = [Event.onComplete] ∨ ∃ v : JVal, t = [Event.onError v]) := by
  cases fr with
  | rejected n m =>
    by_cases hn : n = abortName
    · exact ⟨[], [], by simp [streamPipeline, handleStreamErrorEv, hn], Or.inl rfl⟩
    · exact ⟨[], [Event.onError (.str m)],
        by simp [streamPipeline, handleStreamErrorEv, hn], Or.inr (Or.inr ⟨_, rfl⟩)⟩
  | resolved res =>
    unfold streamPipeline handleStreamResponseEv
    by_cases hok : res.ok
    · simp only [hok, if_true]
      unfold parseSSEr
      by_cases hb : res.hasBody
      · simp only [hb, if_true]
        rcases parseLoopE_shape p thr res.tl res.reads [] with
          ⟨cs, hc⟩ | ⟨cs, v, hc⟩ | ⟨cs, nm, hc⟩
        · exact ⟨cs, [Event.onComplete], by simp [hc], Or.inr (Or.inl rfl)⟩
        · exact ⟨cs, [Event.onError v], by simp [hc], Or.inr (Or.inr ⟨v, rfl⟩)⟩
        · by_cases hn : nm.1 = abortName
          · exact ⟨cs, [], by simp [hc, handleStreamErrorEv, hn], Or.inl rfl⟩
          · exact ⟨cs, [Event.onError (.str nm.2)],
              by simp [hc, handleStreamErrorEv, hn], Or.inr (Or.inr ⟨_, rfl⟩)⟩
      · simp only [hb, if_false]
        exact ⟨[], [Event.onError (.str noBodyMsg)], by simp, Or.inr (Or.inr ⟨_, rfl⟩)⟩
    · simp only [hok, if_false]
      exact ⟨[], [Event.onError
          (.str (if res.errText = [] then res.statusText else res.errText))],
        by simp, Or.inr (Or.inr ⟨_, rfl⟩)⟩

/-! ## C4: zero-image vision requests -/

/-- A multipart vision request whose form parses, whose config unmarshals,
whose prompt is present, and which carries zero file parts. -/
def zeroImageForm : MultipartFormM := { prompt := ("hi").toList }

/-- C4 counterexample. The claim says a multipart vision request with zero
file parts under the repeated images field is rejected by ParseVisionForm.
On this concrete zero-image request ParseVisionForm succeeds (with an
empty image list), so engine construction is attempted: the claim is
false. -/
theorem c4_counterexample :
    ParseVisionForm zeroImageForm = .ok { prompt := ("hi").toList, images := [] } := rfl

/-- C4 amended. A multipart vision request with zero file parts under the
images field (both `images[]` and `images` empty) is accepted by
ParseVisionForm, yielding an empty image list — engine construction is
then attempted; ParseVisionForm rejects only multipart-parse failures,
config-unmarshal failures, empty prompts, and failing image parts. -/
theorem c4_zero_images_accepted (f : MultipartFormM)
    (h1 : f.parseFormErr = none) (h2 : f.configUnmarshalErr = none)
    (h3 : f.prompt ≠ []) (h4 : f.filesBracket = []) (h5 : f.filesPlain = []) :
    ParseVisionForm f = .ok { prompt := f.prompt, images := [] } := by
  unfold ParseVisionForm
  rw [h1, h2]
  simp [h3, h4, h5, mapImages]

theorem c4_zero_images_accepted_witness :
    zeroImageForm.parseFormErr = none ∧ zeroImageForm.configUnmarshalErr = none
    ∧ zeroImageForm.prompt ≠ [] ∧ zeroImageForm.filesBracket = []
    ∧ zeroImageForm.filesPlain = []
    ∧ ParseVisionForm zeroImageForm
        = .ok { prompt := zeroImageForm.prompt, images := [] } :=
  ⟨rfl, rfl, by decide, rfl, rfl,
    c4_zero_images_accepted zeroImageForm rfl rfl (by decide) rfl rfl⟩

/-! ## C5: cancellation checking in writeSSEStream -/

/-- C5 counterexample. The claim says that once cancellation has fired the
Relay Writer stops pulling and writes no further frame of any kind. With
the cancellation token fired from the start, writeSSEStream still writes
an error frame for a pulled error item, and still writes the completion
sentinel when the channel closes — both nonempty writes after
cancellation, so the claim is false. -/
theorem c5_counterexample :
    writeSSE jsonCodec (fun _ => true) 0 [{ error := some (("boom").toList) }]
      = frameOf (jsonCodec.errMarshal (("boom").toList))
    ∧ writeSSE jsonCodec (fun _ => true) 0 [] = frameOf sseDoneLit
    ∧ writeSSE jsonCodec (fun _ => true) 0 [{ error := some (("boom").toList) }] ≠ [] := by
  refine ⟨rfl, rfl, ?_⟩
  decide

/-- C5 amended. writeSSEStream consults the request's cancellation token
once per pulled item, after the pull and only for non-error items, before
serializing: when that check observes cancellation it returns immediately,
writing neither a frame for that chunk nor anything after it. An error
item, however, is written as an error frame without consulting the token,
and an exhausted channel yields the completion sentinel regardless of the
token. -/
theorem c5_cancellation_check_after_pull (cc : Codec) (ctx : Nat → Bool) (n : Nat)
    (c : StreamingChunk) (rest : List StreamingChunk) (m : List Char) :
    (c.error = none → ctx n = true → writeSSE cc ctx n (c :: rest) = [])
    ∧ (c.error = some m → writeSSE cc ctx n (c :: rest) = frameOf (cc.errMarshal m))
    ∧ writeSSE cc ctx n [] = frameOf sseDoneLit := by
  refine ⟨?_, ?_, rfl⟩
  · intro he hc
    simp [writeSSE, he, hc]
  · intro he
    simp [writeSSE, he]

theorem c5_cancellation_check_after_pull_witness :
    wChunkA.error = none ∧ ((fun (_ : Nat) => true) 0) = true
    ∧ writeSSE jsonCodec (fun _ => true) 0 [wChunkA] = []
    ∧ writeSSE jsonCodec (fun _ => true) 0 [{ error := some (("boom").toList) }]
        = frameOf (jsonCodec.errMarshal (("boom").toList)) :=
  ⟨rfl, rfl,
    (c5_cancellation_check_after_pull jsonCodec (fun _ => true) 0 wChunkA [] []).1 rfl rfl,
    (c5_cancellation_check_after_pull jsonCodec (fun _ => true) 0
      { error := some (("boom").toList) } [] (("boom").toList)).2.1 rfl⟩

/-! ## C7: error paths answer with plain JSON, never stream framing -/

/-- A conventional non-streaming JSON error response: `application/json`
(in particular not `text/event-stream`), an error status, and a body that
is a single `{"error": msg}` JSON document — not SSE data frames. -/
def plainJsonError (cc : Codec) (r : HttpResponse) : Prop :=
  r.contentType = appJsonCT ∧ r.contentType ≠ eventStreamCT
  ∧ (r.status = 400 ∨ r.status = 500)
  ∧ ∃ m, r.body = cc.errMarshal m ++ ['\n']

theorem plainJsonError_respond (cc : Codec) (st : Nat) (hst : st = 400 ∨ st = 500)
    (m : List Char) : plainJsonError cc (respondError cc st m) :=
  ⟨rfl, show appJsonCT ≠ eventStreamCT by decide, hst, m, rfl⟩

/-- C7. For every request whose body fails to decode, whose prompt is
empty, or whose engine construction (`agent.New`) fails, the ChatStream
handler responds with a conventional non-streaming JSON error response
(application/json, an error status) and writes no stream framing: the
response is a single JSON error document, not a text/event-stream
response with data frames. -/
theorem c7_error_paths_no_stream_framing (cc : Codec) (env : ChatEnv)
    (h : (∃ e, env.decode = .fail e)
      ∨ (∃ req, env.decode = .ok req ∧ (req.prompt = [] ∨ env.agentNew ≠ none))) :
    plainJsonError cc (ChatStream cc env) := by
  unfold ChatStream
  rcases h with ⟨e, hd⟩ | ⟨req, hd, hcase⟩
  · rw [hd]
    exact plainJsonError_respond cc 400 (Or.inl rfl) _
  · rw [hd]
    by_cases hp : req.prompt = []
    · simp only [hp, if_true]
      exact plainJsonError_respond cc 400 (Or.inl rfl) _
    · simp only [hp, if_false]
      rcases hcase with hpe | ha
      · exact absurd hpe hp
      · cases han : env.agentNew with
        | none => exact absurd han ha
        | some e2 => exact plainJsonError_respond cc 400 (Or.inl rfl) _

/-- A request whose body fails to decode. -/
def envDecodeFail : ChatEnv :=
  { decode := .fail (("bad json").toList), agentNew := none,
    chatStream := .ok [], ctxDone := fun _ => false }

theorem c7_error_paths_no_stream_framing_witness :
    ((∃ e, envDecodeFail.decode = .fail e)
      ∨ (∃ req, envDecodeFail.decode = .ok req
          ∧ (req.prompt = [] ∨ envDecodeFail.agentNew ≠ none)))
    ∧ plainJsonError jsonCodec (ChatStream jsonCodec envDecodeFail) :=
  ⟨Or.inl ⟨("bad json").toList, rfl⟩,
    c7_error_paths_no_stream_framing jsonCodec envDecodeFail
      (Or.inl ⟨("bad json").toList, rfl⟩)⟩

/-! ## C9: caller-supplied abort signal -/

/-- C9. When the caller supplies their own AbortSignal in the options
passed to api.chat or api.vision, the network call is bound to that
supplied signal; the AbortController returned by the call is a distinct
fresh controller, so aborting it has no effect on the in-flight request. -/
theorem c9_supplied_signal_binding (fresh s : Nat) (opts : StreamOptsM)
    (config prompt : List Char) (k : Nat) (abortFired : Nat → Bool)
    (hs : opts.signal = some s) (hdistinct : s ≠ fresh)
    (hfired : abortFired fresh = true) (hnot : abortFired s = false) :
    (apiChat fresh opts).fetchSignal = s
    ∧ (apiVision fresh config prompt k opts).fetchSignal = s
    ∧ (apiChat fresh opts).controller = fresh
    ∧ requestAborted abortFired (apiChat fresh opts) = false
    ∧ requestAborted abortFired (apiVision fresh config prompt k opts) = false := by
  refine ⟨?_, ?_, rfl, ?_, ?_⟩ <;>
    simp [apiChat, apiVision, requestAborted, hs, hnot]

theorem c9_supplied_signal_binding_witness :
    ({ signal := some 1 } : StreamOptsM).signal = some 1 ∧ (1 : Nat) ≠ 0
    ∧ (fun n => decide (n = 0)) 0 = true ∧ (fun n => decide (n = 0)) 1 = false
    ∧ (apiChat 0 { signal := some 1 }).fetchSignal = 1
    ∧ requestAborted (fun n => decide (n = 0)) (apiChat 0 { signal := some 1 }) = false := by
  have h := c9_supplied_signal_binding 0 1 { signal := some 1 } [] [] 0
    (fun n => decide (n = 0)) rfl (by decide) (by decide) (by decide)
  exact ⟨rfl, by decide, by decide, by decide, h.1, h.2.2.2.1⟩

/-! ## C6: missing body and abrupt closure -/

/-- A complete line that is neither the completion literal nor an error
frame: unmarked, or its trimmed payload differs from `[DONE]` and does not
parse to a non-primitive JSON value carrying an `error` member. -/
def lineTerminalFreeB (p : List Char → Option JVal) (l : List Char) : Bool :=
  !(isMarked l) ||
    (!(decide (dataOf l = sseDoneLit)) &&
      (match p (dataOf l) with
       | none => true
       | some v => inOpThrows v || !hasErrorKey v))

theorem lineTerminalFreeB_events {p : List Char → Option JVal} (thr : JVal → Bool)
    {l : List Char} (h : lineTerminalFreeB p l = true) :
    lineEventsT p thr l = ([], false)
    ∨ ∃ v, lineEventsT p thr l = ([Event.onChunk v], false) := by
  unfold lineTerminalFreeB at h
  unfold lineEventsT
  by_cases hm : isMarked l
  · simp only [hm, Bool.not_true, Bool.false_or] at h
    obtain ⟨hd, hrest⟩ := Bool.and_eq_true_iff.mp h
    have hd' : ¬ dataOf l = sseDoneLit := by
      intro hx
      simp [hx] at hd
    simp only [hm, if_true, hd', if_false]
    cases hp : p (dataOf l) with
    | none => exact Or.inl (by simp)
    | some v =>
      rw [hp] at hrest
      by_cases hi : inOpThrows v
      · exact Or.inl (by simp [hi])
      · have hk : hasErrorKey v = false := by
          simp only [hi, Bool.false_or] at hrest
          simpa using hrest
        by_cases ht : thr v
        · exact Or.inr ⟨v, by simp [hi, hk, ht]⟩
        · exact Or.inr ⟨v, by simp [hi, hk, ht]⟩
  · exact Or.inl (by simp [hm])

theorem procLines_free (p : List Char → Option JVal) (thr : JVal → Bool) :
    ∀ ls, (∀ l ∈ ls, lineTerminalFreeB p l = true) →
    ∃ cs : List JVal, procLines p thr ls = (cs.map Event.onChunk, false) := by
  intro ls
  induction ls with
  | nil => exact fun _ => ⟨[], rfl⟩
  | cons l ls ih =>
    intro h
    obtain ⟨cs, hcs⟩ := ih (fun x hx => h x (by simp [hx]))
    rcases lineTerminalFreeB_events thr (h l (by simp)) with he | ⟨v, he⟩
    · exact ⟨cs, by rw [procLines_cons_cont ls he, hcs]; simp⟩
    · exact ⟨v :: cs, by rw [procLines_cons_cont ls he, hcs]; simp⟩

/-- C6. When parseSSE obtains no readable body it invokes onError with the
fixed message "No response body" without reading. When a body was obtained
but the read stream is exhausted (clean `done`) without a completion
literal or error frame among the complete lines of the delivered bytes, it
invokes onComplete (not onError) after the chunk callbacks. -/
theorem c6_no_body_and_abrupt_close (p : List Char → Option JVal) (thr : JVal → Bool)
    (reads : List (List Char)) (tl : ReadEnd)
    (hfree : ∀ l ∈ (splitNl reads.flatten).dropLast, lineTerminalFreeB p l = true) :
    parseSSEr p thr false reads tl = ([Event.onError (.str noBodyMsg)], none)
    ∧ ∃ cs : List JVal, parseSSEr p thr true reads .done
        = (cs.map Event.onChunk ++ [Event.onComplete], none) := by
  constructor
  · rfl
  · show ∃ cs : List JVal, parseLoopE p thr reads [] .done = _
    rw [parseLoopE_join p thr .done reads [] (by simp), parseLoopE_cons]
    simp only [List.nil_append]
    obtain ⟨cs, hcs⟩ := procLines_free p thr _ hfree
    rw [hcs]
    exact ⟨cs, by simp [parseLoopE]⟩

def c6Reads : List (List Char) := [("data: 7\nnot a frame\n").toList, ("data").toList]

theorem c6_no_body_and_abrupt_close_witness :
    (∀ l ∈ (splitNl c6Reads.flatten).dropLast, lineTerminalFreeB jsonParse l = true)
    ∧ parseSSEr jsonParse noThrow false c6Reads .done
        = ([Event.onError (.str noBodyMsg)], none)
    ∧ ∃ cs : List JVal, parseSSEr jsonParse noThrow true c6Reads .done
        = (cs.map Event.onChunk ++ [Event.onComplete], none) := by
  have hfree : ∀ l ∈ (splitNl c6Reads.flatten).dropLast,
      lineTerminalFreeB jsonParse l = true := by decide
  have h := c6_no_body_and_abrupt_close jsonParse noThrow c6Reads .done hfree
  exact ⟨hfree, h.1, h.2⟩

/-! ## C8: per-item resilience -/

/-- The wire produced by a list of frame payloads. -/
def wireOf (ps : List (List Char)) : List Char := (ps.map frameOf).flatten

theorem skipBad_lines (p : List Char → Option JVal) (thr : JVal → Bool)
    (bad : List Char) (hg : goodPayload bad) (hp : p bad = none) (w2 : List Char) :
    ∀ ps1 : List (List Char), (∀ q ∈ ps1, '\n' ∉ q) →
    procLines p thr (splitNl (wireOf ps1 ++ (frameOf bad ++ w2))).dropLast
      = procLines p thr (splitNl (wireOf ps1 ++ w2)).dropLast
    ∧ lastLn (splitNl (wireOf ps1 ++ (frameOf bad ++ w2)))
      = lastLn (splitNl (wireOf ps1 ++ w2)) := by
  intro ps1
  induction ps1 with
  | nil =>
    intro _
    simp only [wireOf, List.map_nil, List.flatten_nil, List.nil_append]
    rw [splitNl_frame hg.1 w2]
    constructor
    · rw [dropLast_frame_lines,
        procLines_cons_cont _ (lineEventsT_badparse thr hg hp),
        procLines_cons_cont _ (lineEventsT_blank p thr)]
      simp
    · rw [lastLn_frame_lines]
  | cons q qs ih =>
    intro hq
    have hq1 : '\n' ∉ q := hq q (by simp)
    have ihh := ih (fun x hx => hq x (by simp [hx]))
    have hw : wireOf (q :: qs) = frameOf q ++ wireOf qs := by simp [wireOf]
    rw [hw, List.append_assoc, List.append_assoc, splitNl_frame hq1, splitNl_frame hq1]
    constructor
    · rw [dropLast_frame_lines, dropLast_frame_lines]
      rcases he : lineEventsT p thr (sseDataMarker ++ q) with ⟨es, t⟩
      cases t with
      | false =>
        rw [procLines_cons_cont _ he, procLines_cons_cont _ he,
          procLines_cons_cont _ (lineEventsT_blank p thr),
          procLines_cons_cont _ (lineEventsT_blank p thr), ihh.1]
      | true =>
        rw [procLines_cons_term _ he, procLines_cons_term _ he]
    · rw [lastLn_frame_lines, lastLn_frame_lines, ihh.2]

theorem writeSSE_ctxF_congr (cc : Codec) :
    ∀ (l : List StreamingChunk) (n m : Nat),
    writeSSE cc (fun _ => false) n l = writeSSE cc (fun _ => false) m l := by
  intro l
  induction l with
  | nil => intro n m; rfl
  | cons c rest ih =>
    intro n m
    cases hce : c.error with
    | some e => simp [writeSSE, hce]
    | none =>
      cases hm : cc.marshal c with
      | none => simp [writeSSE, hce, hm, ih (n + 1) (m + 1)]
      | some s => simp [writeSSE, hce, hm, ih (n + 1) (m + 1)]

theorem writeSSE_skip_bad (cc : Codec) (bad : StreamingChunk)
    (hbe : bad.error = none) (hbm : cc.marshal bad = none) :
    ∀ (pre : List StreamingChunk) (post : List StreamingChunk) (n : Nat),
    writeSSE cc (fun _ => false) n (pre ++ bad :: post)
      = writeSSE cc (fun _ => false) n (pre ++ post) := by
  intro pre
  induction pre with
  | nil =>
    intro post n
    simp only [List.nil_append]
    rw [show writeSSE cc (fun _ => false) n (bad :: post)
        = writeSSE cc (fun _ => false) (n + 1) post by simp [writeSSE, hbe, hbm]]
    exact writeSSE_ctxF_congr cc post (n + 1) n
  | cons c rest ih =>
    intro post n
    cases hce : c.error with
    | some e => simp [writeSSE, hce]
    | none =>
      cases hm : cc.marshal c with
      | none => simp [writeSSE, hce, hm, ih post (n + 1)]
      | some s => simp [writeSSE, hce, hm, ih post (n + 1)]

theorem writeSSE_sentinel (cc : Codec) :
    ∀ (l : List StreamingChunk) (n : Nat), (∀ c ∈ l, c.error = none) →
    ∃ w, writeSSE cc (fun _ => false) n l = w ++ frameOf sseDoneLit := by
  intro l
  induction l with
  | nil => exact fun n _ => ⟨[], rfl⟩
  | cons c rest ih =>
    intro n h
    have hce : c.error = none := h c (by simp)
    obtain ⟨w, hw⟩ := ih (n + 1) (fun x hx => h x (by simp [hx]))
    cases hm : cc.marshal c with
    | none => exact ⟨w, by simp [writeSSE, hce, hm, hw]⟩
    | some s => exact ⟨frameOf s ++ w, by simp [writeSSE, hce, hm, hw]⟩

/-- C8. A single unserializable or unparseable item never terminates the
stream: if serializing one chunk fails, writeSSEStream skips that item,
continues with subsequent chunks, and still writes the completion
sentinel; if one data line fails to parse on the client, parseSSE skips
that line and continues processing the rest of the wire identically. -/
theorem c8_per_item_resilience (cc : Codec) (thr : JVal → Bool)
    (bad : StreamingChunk) (pre post : List StreamingChunk)
    (badLine : List Char) (ps1 : List (List Char)) (w2 : List Char)
    (hbe : bad.error = none) (hbm : cc.marshal bad = none)
    (hclean : ∀ c ∈ pre ++ post, c.error = none)
    (hg : goodPayload badLine) (hp : cc.parse badLine = none)
    (hq : ∀ q ∈ ps1, '\n' ∉ q) :
    writeSSE cc (fun _ => false) 0 (pre ++ bad :: post)
      = writeSSE cc (fun _ => false) 0 (pre ++ post)
    ∧ (∃ w, writeSSE cc (fun _ => false) 0 (pre ++ bad :: post) = w ++ frameOf sseDoneLit)
    ∧ parseLoopE cc.parse thr [wireOf ps1 ++ (frameOf badLine ++ w2)] [] .done
      = parseLoopE cc.parse thr [wireOf ps1 ++ w2] [] .done := by
  have hskip := writeSSE_skip_bad cc bad hbe hbm pre post 0
  refine ⟨hskip, ?_, ?_⟩
  · rw [hskip]
    exact writeSSE_sentinel cc (pre ++ post) 0 hclean
  · have hlines := skipBad_lines cc.parse thr badLine hg hp w2 ps1 hq
    rw [parseLoopE_cons, parseLoopE_cons]
    simp only [List.nil_append]
    rw [hlines.1, hlines.2]

def badChunk : StreamingChunk := { model := ("bad").toList }

theorem c8_per_item_resilience_witness :
    badChunk.error = none
    ∧ (jsonCodecDrop (("bad").toList)).marshal badChunk = none
    ∧ (∀ c ∈ [wChunkA] ++ ([] : List StreamingChunk), c.error = none)
    ∧ goodPayload (("nope").toList)
    ∧ (jsonCodecDrop (("bad").toList)).parse (("nope").toList) = none
    ∧ (∀ q ∈ [("7").toList], '\n' ∉ q)
    ∧ writeSSE (jsonCodecDrop (("bad").toList)) (fun _ => false) 0
        ([wChunkA] ++ badChunk :: [])
      = writeSSE (jsonCodecDrop (("bad").toList)) (fun _ => false) 0 ([wChunkA] ++ [])
    ∧ parseLoopE (jsonCodecDrop (("bad").toList)).parse noThrow
        [wireOf [("7").toList] ++ (frameOf (("nope").toList) ++ frameOf sseDoneLit)] [] .done
      = parseLoopE (jsonCodecDrop (("bad").toList)).parse noThrow
        [wireOf [("7").toList] ++ frameOf sseDoneLit] [] .done := by
  have h := c8_per_item_resilience (jsonCodecDrop (("bad").toList)) noThrow
    badChunk [wChunkA] [] (("nope").toList) [("7").toList] (frameOf sseDoneLit)
    rfl rfl (by decide) ⟨by decide, by decide, by decide⟩ rfl (by decide)
  exact ⟨rfl, rfl, by decide, ⟨by decide, by decide, by decide⟩, rfl, by decide, h.1, h.2.2⟩

/-! ## C10: throwing onChunk and non-object payloads -/

theorem lineEventsT_thr_irrel (p : List Char → Option JVal) (thr : JVal → Bool)
    (l : List Char) : lineEventsT p thr l = lineEventsT p noThrow l := by
  unfold lineEventsT
  by_cases hm : isMarked l
  · simp only [hm, if_true]
    by_cases hd : dataOf l = sseDoneLit
    · simp [hd]
    · simp only [hd, if_false]
      cases hp : p (dataOf l) with
      | none => rfl
      | some v =>
        by_cases hi : inOpThrows v
        · simp [hi]
        · by_cases hk : hasErrorKey v
          · simp [hi, hk]
          · by_cases ht : thr v
            · simp [hi, hk, ht, noThrow]
            · simp [hi, hk, ht, noThrow]
  · simp [hm]

theorem procLines_thr_irrel (p : List Char → Option JVal) (thr : JVal → Bool) :
    ∀ ls, procLines p thr ls = procLines p noThrow ls := by
  intro ls
  induction ls with
  | nil => rfl
  | cons l ls ih => simp [procLines, lineEventsT_thr_irrel p thr l, ih]

theorem parseLoopE_thr_irrel (p : List Char → Option JVal) (thr : JVal → Bool)
    (tl : ReadEnd) : ∀ (reads : List (List Char)) (buf : List Char),
    parseLoopE p thr reads buf tl = parseLoopE p noThrow reads buf tl := by
  intro reads
  induction reads with
  | nil => intro buf; cases tl <;> rfl
  | cons r rs ih =>
    intro buf
    rw [parseLoopE_cons, parseLoopE_cons, procLines_thr_irrel p thr, ih]

/-- C10 counterexample. The JSON payload `[1,2]` is not a JSON object, yet
it reaches onChunk: in JS, `'error' in [1,2]` evaluates to `false` instead
of throwing, so the array is passed to onChunk. This refutes "any
non-object JSON payload never reaches onChunk" when "non-object" is read
as "not a JSON object". -/
theorem c10_counterexample :
    parseSSEr jsonParse noThrow true [("data: [1,2]\n").toList] .done
      = ([Event.onChunk (.arr [.num 1, .num 2]), Event.onComplete], none) := rfl

/-- C10 amended. An exception thrown by the caller-supplied onChunk while
parseSSE processes a data line is swallowed by the try/catch: it does not
propagate out of parseSSE and does not terminate the stream — the
callback trace is identical to that of a non-throwing caller, for every
input. And a primitive JSON payload (null, boolean, number, or string —
not an object and not an array) never reaches onChunk: the in-operator
throws on it, the catch swallows the throw, and the line is skipped.
(JSON arrays, by contrast, do reach onChunk — see the counterexample.) -/
theorem c10_onchunk_throw_swallowed (p : List Char → Option JVal) (thr : JVal → Bool)
    (hasBody : Bool) (reads : List (List Char)) (tl : ReadEnd) (l : List Char) (v : JVal)
    (hm : isMarked l = true) (hd : dataOf l ≠ sseDoneLit)
    (hp : p (dataOf l) = some v) (hprim : inOpThrows v = true) :
    parseSSEr p thr hasBody reads tl = parseSSEr p noThrow hasBody reads tl
    ∧ lineEventsT p thr l = ([], false) := by
  constructor
  · unfold parseSSEr
    cases hasBody with
    | true => simp [parseLoopE_thr_irrel p thr tl reads]
    | false => rfl
  · simp [lineEventsT, hm, hd, hp, hprim]

theorem c10_onchunk_throw_swallowed_witness :
    isMarked (("data: 7").toList) = true
    ∧ dataOf (("data: 7").toList) ≠ sseDoneLit
    ∧ jsonParse (dataOf (("data: 7").toList)) = some (.num 7)
    ∧ inOpThrows (.num 7) = true
    ∧ parseSSEr jsonParse (fun _ => true) true [("data: 7\n").toList] .done
        = parseSSEr jsonParse noThrow true [("data: 7\n").toList] .done
    ∧ lineEventsT jsonParse (fun _ => true) (("data: 7").toList) = ([], false) := by
  have h := c10_onchunk_throw_swallowed jsonParse (fun _ => true) true
    [("data: 7\n").toList] .done (("data: 7").toList) (.num 7)
    rfl (by decide) rfl rfl
  exact ⟨rfl, by decide, rfl, rfl, h.1, h.2⟩
